import Mathlib

-- Shallow embedding of the local embedding service (server.js together with
-- the two unnamed variants of the same server). The numeric post-processing
-- functions are modelled over an arbitrary division ring where possible, so
-- that theorems can be stated over exact rationals or over the reals; the
-- pipeline that involves Math.sqrt is modelled over the reals.

-- RawTensor: the per-token hidden-state output of the inference collaborator,
-- a flat row-major buffer together with explicit dims [1, T, D].
structure Tensor (α : Type) where
  dims : List Nat
  data : List α

-- State of the JS array `out` after n iterations of the accumulation loop
-- `for (let i = 0; i < tokens * dim; i++) out[i % dim] += data[i]`,
-- starting from `new Array(dim).fill(0)`.
def accumOut {α : Type} [DivisionRing α] (data : List α) (dim : Nat) : Nat → Nat → α
  | 0 => fun _ => 0
  | n + 1 =>
    Function.update (accumOut data dim n) (n % dim)
      (accumOut data dim n (n % dim) + data.getD n 0)

-- Body of meanPoolTensor / meanPool: destructure dims as [_, tokens, dim],
-- accumulate data[i] into out[i % dim], then divide each slot by tokens.
def meanPoolVec {α : Type} [DivisionRing α] (t : Tensor α) : List α :=
  (List.range (t.dims.getD 2 0)).map
    (fun d =>
      accumOut t.data (t.dims.getD 2 0) (t.dims.getD 1 0 * t.dims.getD 2 0) d
        / (t.dims.getD 1 0 : α))

-- meanPoolTensor as in server.js and the padded variant: returns {vec, tokens}.
def meanPoolTensor {α : Type} [DivisionRing α] (t : Tensor α) : List α × Nat :=
  (meanPoolVec t, t.dims.getD 1 0)

-- Sum of squares accumulated as in `let s = 0; for (const x of v) s += x * x`.
noncomputable def sumSq (v : List ℝ) : ℝ := v.foldl (fun s x => s + x * x) 0

-- l2norm: `const n = Math.sqrt(s) || 1; return v.map(x => x / n)`. The sum of
-- squares of reals is nonnegative, so the falsy cases of the JS expression
-- reduce to the square root being zero.
noncomputable def l2norm (v : List ℝ) : List ℝ :=
  v.map (fun x => x / (if Real.sqrt (sumSq v) = 0 then 1 else Real.sqrt (sumSq v)))

-- adjustDim from the padded variant: identity, right-pad with zeros, or
-- truncate to the first target components.
def adjustDim {α : Type} [Zero α] (vec : List α) (target : Nat) : List α :=
  if vec.length = target then vec
  else if vec.length < target then vec ++ List.replicate (target - vec.length) 0
  else vec.take target

-- Euclidean length of a vector, used to state the normalization claims.
noncomputable def eucNorm (v : List ℝ) : ℝ := Real.sqrt (sumSq v)

-- Request input: either a single JS value or an array of JS values. A value
-- is modelled by its string coercion, with none standing for null/undefined.
inductive JsInput where
  | single : Option String → JsInput
  | arr : List (Option String) → JsInput
deriving DecidableEq

-- JS String.prototype.trim: drop whitespace from both ends. Modelled on the
-- character list of the string so that it evaluates by kernel reduction.
def jsTrim (s : String) : String :=
  ⟨((s.data.dropWhile Char.isWhitespace).reverse.dropWhile Char.isWhitespace).reverse⟩

-- One element of the texts map: `const s = String(t ?? "").trim();
-- return s.length ? s : " ";`.
def coerceItem (t : Option String) : String :=
  if 0 < (jsTrim (t.getD "")).length then jsTrim (t.getD "") else " "

-- items: `Array.isArray(input) ? input : [String(input ?? " ")]`.
def itemsOf : JsInput → List (Option String)
  | .arr l => l
  | .single v => [some (v.getD " ")]

-- The request normalizer of the /embed handler.
def normalizeInput (input : JsInput) : List String := (itemsOf input).map coerceItem

structure ReqBody where
  input : JsInput
  model : Option String

structure EmbedItem where
  object : String
  index : Nat
  embedding : List ℝ

structure Usage where
  prompt_tokens : Nat
  total_tokens : Nat
deriving DecidableEq

structure EmbedResponse where
  object : String
  data : List EmbedItem
  model : String
  usage : Usage
  error : Option String
  status : Nat

def NORMALIZE : Bool := true

def TARGET_DIM : Nat := 1536

def RESPONSE_MODEL_LABEL : String := "text-embedding-3-small"

-- JS `v || d` on an optional string: empty strings are falsy.
def jsOr (v : Option String) (d : String) : String :=
  match v with
  | none => d
  | some s => if s = "" then d else s

-- JS `String(e?.message || e)` for a thrown Error value carrying message m:
-- the message when nonempty, otherwise the string form of a default Error.
def errString (m : String) : String := if m = "" then "Error" else m

-- Per-item pipeline of the padded variant, lines 83 to 85:
-- emb = adjustDim(NORMALIZE ? l2norm(vec) : vec, TARGET_DIM).
noncomputable def itemEmb000 (tgt : Nat) (raw : Tensor ℝ) : List ℝ :=
  adjustDim (if NORMALIZE then l2norm (meanPoolTensor raw).1 else (meanPoolTensor raw).1) tgt

-- Per-item pipeline of server.js, line 86: emb = NORMALIZE ? l2norm(vec) : vec.
noncomputable def itemEmbSrv (raw : Tensor ℝ) : List ℝ :=
  if NORMALIZE then l2norm (meanPoolTensor raw).1 else (meanPoolTensor raw).1

-- The sequential per-item loop of the /embed handler. The first failing
-- embedder call aborts the whole computation, exactly as the exception
-- escaping the for loop discards the partially built data array.
noncomputable def processItems (item : Tensor ℝ → List ℝ)
    (embedder : String → Except String (Tensor ℝ)) :
    List String → Nat → Except String (List EmbedItem × Nat)
  | [], _ => .ok ([], 0)
  | t :: rest, i =>
    match embedder t with
    | .error e => .error e
    | .ok raw =>
      match processItems item embedder rest (i + 1) with
      | .error e => .error e
      | .ok p => .ok (⟨"embedding", i, item raw⟩ :: p.1, (meanPoolTensor raw).2 + p.2)

-- The /embed handler: normalize the input, run the loop, and assemble either
-- the success envelope or the catch-branch error envelope.
noncomputable def handleEmbedWith (item : Tensor ℝ → List ℝ)
    (embedder : String → Except String (Tensor ℝ)) (body : ReqBody) : EmbedResponse :=
  match processItems item embedder (normalizeInput body.input) 0 with
  | .ok p => ⟨"list", p.1, jsOr body.model RESPONSE_MODEL_LABEL, ⟨p.2, p.2⟩, none, 200⟩
  | .error e => ⟨"list", [], jsOr body.model RESPONSE_MODEL_LABEL, ⟨0, 0⟩, some (errString e), 500⟩

-- The padded variant of the handler (adjustDim to TARGET_DIM after l2norm).
noncomputable def handleEmbed000 (tgt : Nat) (embedder : String → Except String (Tensor ℝ))
    (body : ReqBody) : EmbedResponse :=
  handleEmbedWith (itemEmb000 tgt) embedder body

-- The server.js handler (native dimension, no reconciliation).
noncomputable def handleEmbedSrv (embedder : String → Except String (Tensor ℝ))
    (body : ReqBody) : EmbedResponse :=
  handleEmbedWith itemEmbSrv embedder body

-- Possibly missing or malformed result of the pooled/normalized fast path of
-- the inference adapter: data or dims may be absent.
structure JsTensorish where
  data : Option (List ℝ)
  dims : Option (List Nat)

-- Fallback path of the adapter loop, lines 84 to 90 of the adapter variant:
-- manual mean pooling followed by inline normalization when requested.
noncomputable def fallbackVec001 (nrm : Bool) (raw : Tensor ℝ) : List ℝ :=
  let vec := meanPoolVec raw
  if nrm then
    vec.map (fun v => v /
      (if Real.sqrt (vec.foldl (fun s x => s + x * x) 0) = 0 then 1
       else Real.sqrt (vec.foldl (fun s x => s + x * x) 0)))
  else vec

-- One iteration of the adapter loop: use the fast-path result when it has
-- data and dims of length at least 1, otherwise fall back.
noncomputable def adapterItem (nrm : Bool) (fast : Option JsTensorish) (raw : Tensor ℝ) :
    List ℝ :=
  match fast with
  | some t =>
    match t.data, t.dims with
    | some d, some ds => if 1 ≤ ds.length then d else fallbackVec001 nrm raw
    | some _, none => fallbackVec001 nrm raw
    | none, _ => fallbackVec001 nrm raw
  | none => fallbackVec001 nrm raw

-- Boolean check that a character list begins with the given needle.
def startsWithL : List Char → List Char → Bool
  | [], _ => true
  | _ :: _, [] => false
  | a :: as, b :: bs => (a == b) && startsWithL as bs

-- Boolean substring search on character lists.
def hasSubL (needle : List Char) : List Char → Bool
  | [] => needle.isEmpty
  | b :: bs => startsWithL needle (b :: bs) || hasSubL needle bs

-- Lowercasing of a string, modelled on its character list so that it
-- evaluates by kernel reduction.
def lowerStr (s : String) : String := ⟨s.data.map Char.toLower⟩

-- The regex test /bge/i on the model identifier: case-insensitive substring.
def bgeTest (m : String) : Bool := hasSubL "bge".data (lowerStr m).data

-- withPrefix of the adapter variant, parametrized by the config flag and the
-- active model identifier.
def withPrefixFn (useP : Bool) (modelId str kind : String) : String :=
  if !useP || !bgeTest modelId then str
  else if kind = "query" then "query: " ++ str
  else "passage: " ++ str

-- Concrete scenario used by the witnesses: an embedder that always returns a
-- one-token one-dimensional zero tensor, one that always throws, and a body
-- carrying the single input "a".
noncomputable def raw0 : Tensor ℝ := ⟨[1, 1, 1], [0]⟩

noncomputable def zeroEmb : String → Except String (Tensor ℝ) := fun _ => .ok raw0

def failEmb : String → Except String (Tensor ℝ) := fun _ => .error "boom"

def bodyA : ReqBody := ⟨JsInput.single (some "a"), none⟩

-- The accumulation loop computes, in slot d, the sum of the data entries
-- whose index is congruent to d modulo dim.
theorem accumOut_eq {α : Type} [DivisionRing α] (data : List α) (dim : Nat) :
    ∀ n d, accumOut data dim n d
      = ∑ i ∈ (Finset.range n).filter (fun i => i % dim = d), data.getD i 0 := by
  intro n
  induction n with
  | zero => intro d; simp [accumOut]
  | succ n ih =>
    intro d
    rw [Finset.range_succ, Finset.filter_insert]
    by_cases h : n % dim = d
    · rw [if_pos h]
      rw [Finset.sum_insert (by simp)]
      show Function.update (accumOut data dim n) (n % dim)
          (accumOut data dim n (n % dim) + data.getD n 0) d
        = data.getD n 0 + ∑ i ∈ (Finset.range n).filter (fun i => i % dim = d), data.getD i 0
      rw [h, Function.update_same, ih d]
      exact add_comm _ _
    · rw [if_neg h]
      show Function.update (accumOut data dim n) (n % dim)
          (accumOut data dim n (n % dim) + data.getD n 0) d
        = ∑ i ∈ (Finset.range n).filter (fun i => i % dim = d), data.getD i 0
      rw [Function.update_noteq (fun hd => h hd.symm), ih d]

-- Reindexing: the indices below T * D congruent to d modulo D are exactly
-- the t * D + d for t below T.
theorem filterSum_eq {M : Type} [AddCommMonoid M] (f : Nat → M) (T D d : Nat) (hd : d < D) :
    ∑ i ∈ (Finset.range (T * D)).filter (fun i => i % D = d), f i
      = ∑ t ∈ Finset.range T, f (t * D + d) := by
  have hD : 0 < D := Nat.lt_of_le_of_lt (Nat.zero_le d) hd
  have key : ∀ a ∈ (Finset.range (T * D)).filter (fun i => i % D = d), a / D * D + d = a := by
    intro a ha
    rw [Finset.mem_filter] at ha
    have h1 := Nat.div_add_mod a D
    rw [ha.2, Nat.mul_comm] at h1
    exact h1
  refine Finset.sum_nbij' (fun i => i / D) (fun t => t * D + d) ?_ ?_ ?_ ?_ ?_
  · intro a ha
    rw [Finset.mem_filter, Finset.mem_range] at ha
    rw [Finset.mem_range]
    exact (Nat.div_lt_iff_lt_mul hD).mpr ha.1
  · intro a ha
    rw [Finset.mem_range] at ha
    rw [Finset.mem_filter, Finset.mem_range]
    refine ⟨?_, ?_⟩
    · show a * D + d < T * D
      calc a * D + d < a * D + D := by omega
        _ = (a + 1) * D := by ring
        _ ≤ T * D := Nat.mul_le_mul_right D ha
    · show (a * D + d) % D = d
      rw [Nat.mul_comm, Nat.mul_add_mod]
      exact Nat.mod_eq_of_lt hd
  · intro a ha
    exact key a ha
  · intro a _
    show (a * D + d) / D = a
    rw [Nat.mul_comm, Nat.mul_add_div hD, Nat.div_eq_of_lt hd]
    omega
  · intro a ha
    show f a = f (a / D * D + d)
    rw [key a ha]

/-- C1: for a raw tensor with dims [1, T, D] with T, D at least 1 and flat
row-major data of length T * D, meanPoolTensor returns a vector of length D
whose component d is (1 / T) times the sum over t below T of data[t * D + d];
the accumulation into out[i % dim] computes exactly the per-dimension mean. -/
theorem c1_meanPool (T D : Nat) (data : List ℚ) (hT : 1 ≤ T) (hD : 1 ≤ D)
    (hlen : data.length = T * D) :
    (meanPoolTensor (Tensor.mk [1, T, D] data)).1.length = D ∧
    ∀ d, d < D →
      (meanPoolTensor (Tensor.mk [1, T, D] data)).1.getD d 0
        = (1 / (T : ℚ)) * ∑ t ∈ Finset.range T, data.getD (t * D + d) 0 := by
  constructor
  · simp [meanPoolTensor, meanPoolVec, List.getD]
  · intro d hd
    have hvec : (meanPoolTensor (Tensor.mk [1, T, D] data)).1
        = (List.range D).map (fun j => accumOut data D (T * D) j / (T : ℚ)) := rfl
    have hlen' : d < ((List.range D).map
        (fun j => accumOut data D (T * D) j / (T : ℚ))).length := by
      simpa using hd
    rw [hvec, List.getD_eq_getElem _ _ hlen', List.getElem_map, List.getElem_range,
      accumOut_eq, filterSum_eq _ T D d hd, one_div, inv_mul_eq_div]

/-- Witness for C1 at the concrete tensor with dims [1, 2, 2] and data
[1, 2, 3, 4]. -/
theorem c1_meanPool_witness :
    (meanPoolTensor (Tensor.mk [1, 2, 2] ([1, 2, 3, 4] : List ℚ))).1.length = 2 ∧
    ∀ d, d < 2 →
      (meanPoolTensor (Tensor.mk [1, 2, 2] ([1, 2, 3, 4] : List ℚ))).1.getD d 0
        = (1 / (2 : ℚ)) * ∑ t ∈ Finset.range 2, ([1, 2, 3, 4] : List ℚ).getD (t * 2 + d) 0 :=
  c1_meanPool 2 2 [1, 2, 3, 4] (by decide) (by decide) (by decide)

-- Folding the squares from any accumulator adds the sum of the squares.
theorem sumSq_aux (v : List ℝ) :
    ∀ a : ℝ, v.foldl (fun s x => s + x * x) a = a + (v.map (fun x => x * x)).sum := by
  induction v with
  | nil => intro a; simp
  | cons x xs ih => intro a; simp [ih, add_assoc]

theorem sumSq_eq_sum (v : List ℝ) : sumSq v = (v.map (fun x => x * x)).sum := by
  simpa using sumSq_aux v 0

theorem sumSq_cons (x : ℝ) (xs : List ℝ) : sumSq (x :: xs) = x * x + sumSq xs := by
  rw [sumSq_eq_sum, sumSq_eq_sum, List.map_cons, List.sum_cons]

theorem sumSq_nonneg (v : List ℝ) : 0 ≤ sumSq v := by
  rw [sumSq_eq_sum]
  apply List.sum_nonneg
  intro x hx
  rw [List.mem_map] at hx
  obtain ⟨y, _, rfl⟩ := hx
  exact mul_self_nonneg y

theorem sumSq_append (a b : List ℝ) : sumSq (a ++ b) = sumSq a + sumSq b := by
  rw [sumSq_eq_sum, sumSq_eq_sum, sumSq_eq_sum, List.map_append, List.sum_append]

theorem sumSq_replicate_zero (k : Nat) : sumSq (List.replicate k (0 : ℝ)) = 0 := by
  rw [sumSq_eq_sum]
  simp

theorem sumSq_eq_zero_iff (v : List ℝ) : sumSq v = 0 ↔ ∀ x ∈ v, x = 0 := by
  induction v with
  | nil => simp [sumSq]
  | cons x xs ih =>
    rw [sumSq_cons]
    constructor
    · intro h
      have h1 := (add_eq_zero_iff_of_nonneg (mul_self_nonneg x) (sumSq_nonneg xs)).mp h
      intro y hy
      rcases List.mem_cons.mp hy with hy | hy
      · rw [hy]; exact mul_self_eq_zero.mp h1.1
      · exact (ih.mp h1.2) y hy
    · intro h
      have hx : x = 0 := h x (List.mem_cons_self x xs)
      have hxs : sumSq xs = 0 := ih.mpr (fun y hy => h y (List.mem_cons_of_mem x hy))
      rw [hx, hxs, mul_zero, add_zero]

theorem sumSq_map_div (v : List ℝ) (n : ℝ) :
    sumSq (v.map (fun x => x / n)) = sumSq v / (n * n) := by
  induction v with
  | nil => simp [sumSq]
  | cons x xs ih =>
    rw [List.map_cons, sumSq_cons, sumSq_cons, ih, add_div, div_mul_div_comm]

theorem l2norm_length (v : List ℝ) : (l2norm v).length = v.length := by
  simp [l2norm]

theorem l2norm_of_zero (v : List ℝ) (h : sumSq v = 0) : l2norm v = v := by
  have h1 : Real.sqrt (sumSq v) = 0 := by rw [h, Real.sqrt_zero]
  simp only [l2norm, if_pos h1, div_one]
  exact List.map_id' v

theorem l2norm_of_ne (v : List ℝ) (h : sumSq v ≠ 0) :
    l2norm v = v.map (fun x => x / Real.sqrt (sumSq v)) := by
  have hpos : 0 < sumSq v := lt_of_le_of_ne (sumSq_nonneg v) (Ne.symm h)
  have hs : Real.sqrt (sumSq v) ≠ 0 := ne_of_gt (Real.sqrt_pos.mpr hpos)
  simp only [l2norm, if_neg hs]

theorem sumSq_l2norm (v : List ℝ) (h : sumSq v ≠ 0) : sumSq (l2norm v) = 1 := by
  have hpos : 0 < sumSq v := lt_of_le_of_ne (sumSq_nonneg v) (Ne.symm h)
  rw [l2norm_of_ne v h, sumSq_map_div, Real.mul_self_sqrt (le_of_lt hpos), div_self h]

theorem adjustDim_length {α : Type} [Zero α] (v : List α) (t : Nat) :
    (adjustDim v t).length = t := by
  by_cases h1 : v.length = t
  · simp [adjustDim, h1]
  · by_cases h2 : v.length < t
    · simp only [adjustDim, if_neg h1, if_pos h2, List.length_append, List.length_replicate]
      omega
    · simp only [adjustDim, if_neg h1, if_neg h2, List.length_take]
      omega

/-- C4: l2norm maps the zero vector to the zero vector (the zero norm being
replaced by 1, so no division by zero occurs), and maps every nonzero vector
v to v scaled by 1 over the square root of its sum of squares, a vector whose
Euclidean length is exactly 1. -/
theorem c4_l2norm (v : List ℝ) :
    ((∀ x ∈ v, x = 0) → l2norm v = v) ∧
    ((∃ x ∈ v, x ≠ 0) →
      l2norm v = v.map (fun x => x / Real.sqrt (sumSq v)) ∧ eucNorm (l2norm v) = 1) := by
  constructor
  · intro h
    exact l2norm_of_zero v ((sumSq_eq_zero_iff v).mpr h)
  · intro h
    have hne : sumSq v ≠ 0 := by
      intro h0
      obtain ⟨x, hx, hxne⟩ := h
      exact hxne ((sumSq_eq_zero_iff v).mp h0 x hx)
    refine ⟨l2norm_of_ne v hne, ?_⟩
    rw [eucNorm, sumSq_l2norm v hne, Real.sqrt_one]

/-- Witness for C4 at the zero vector [0, 0] and the nonzero vector [3, 4]. -/
theorem c4_l2norm_witness :
    l2norm [(0 : ℝ), 0] = [0, 0] ∧ eucNorm (l2norm [(3 : ℝ), 4]) = 1 :=
  ⟨(c4_l2norm [0, 0]).1 (by simp),
   ((c4_l2norm [3, 4]).2 ⟨3, by simp, by norm_num⟩).2⟩

-- Structure of a successful run of the per-item loop: one entry per text,
-- indices consecutive from the start index, and every entry an "embedding"
-- object whose vector came from the per-item pipeline.
theorem processItems_ok (item : Tensor ℝ → List ℝ)
    (embedder : String → Except String (Tensor ℝ)) :
    ∀ (texts : List String) (k : Nat) (p : List EmbedItem × Nat),
      processItems item embedder texts k = .ok p →
      p.1.length = texts.length ∧
      (∀ i, i < p.1.length → (p.1.getD i ⟨"", 0, []⟩).index = k + i) ∧
      (∀ it ∈ p.1, it.object = "embedding" ∧ ∃ raw, it.embedding = item raw) := by
  intro texts
  induction texts with
  | nil =>
    intro k p h
    simp only [processItems] at h
    obtain rfl : (([], 0) = p) := Except.ok.inj h
    simp
  | cons t rest ih =>
    intro k p h
    cases he : embedder t with
    | error e => rw [processItems, he] at h; cases h
    | ok raw =>
      cases hr : processItems item embedder rest (k + 1) with
      | error e => rw [processItems, he, hr] at h; cases h
      | ok q =>
        rw [processItems, he, hr] at h
        obtain rfl := Except.ok.inj h
        obtain ⟨ihlen, ihidx, ihmem⟩ := ih (k + 1) q hr
        refine ⟨by simp [ihlen], ?_, ?_⟩
        · intro i hi
          cases i with
          | zero => simp
          | succ j =>
            rw [List.getD_cons_succ]
            have hj : j < q.1.length := by
              simpa using hi
            rw [ihidx j hj]
            omega
        · intro it hit
          rcases List.mem_cons.mp hit with h1 | h1
          · subst h1
            exact ⟨rfl, raw, rfl⟩
          · exact ihmem it h1

-- If the embedder fails on any text of the batch, the whole loop fails.
theorem processItems_err (item : Tensor ℝ → List ℝ)
    (embedder : String → Except String (Tensor ℝ)) :
    ∀ (texts : List String) (k : Nat),
      (∃ t ∈ texts, ∃ e, embedder t = .error e) →
      ∃ e, processItems item embedder texts k = .error e := by
  intro texts
  induction texts with
  | nil => intro k h; simp at h
  | cons t rest ih =>
    intro k h
    cases he : embedder t with
    | error e => exact ⟨e, by rw [processItems, he]⟩
    | ok raw =>
      obtain ⟨t0, ht0, e0, he0⟩ := h
      rcases List.mem_cons.mp ht0 with h1 | h1
      · rw [h1, he] at he0
        cases he0
      · obtain ⟨e, hee⟩ := ih (k + 1) ⟨t0, h1, e0, he0⟩
        exact ⟨e, by rw [processItems, he, hee]⟩

-- The model field of the response is the JS or-default of the request model
-- in both the success and the catch branch.
theorem handleEmbedWith_model (item : Tensor ℝ → List ℝ)
    (embedder : String → Except String (Tensor ℝ)) (body : ReqBody) :
    (handleEmbedWith item embedder body).model = jsOr body.model RESPONSE_MODEL_LABEL := by
  unfold handleEmbedWith
  cases h : processItems item embedder (normalizeInput body.input) 0 with
  | ok p => rfl
  | error e => rfl

/-- C2: adjustDim is the identity when the vector length equals the target,
appends target minus length trailing zeros when shorter, keeps exactly the
first target components when longer, and its output length always equals the
target; consequently every embedding in the data of a padded-variant response
has length exactly the configured target dimension. -/
theorem c2_adjustDim (v : List ℝ) (target tgt : Nat)
    (embedder : String → Except String (Tensor ℝ)) (body : ReqBody) :
    (v.length = target → adjustDim v target = v) ∧
    (v.length < target → adjustDim v target = v ++ List.replicate (target - v.length) 0) ∧
    (target < v.length → adjustDim v target = v.take target) ∧
    (adjustDim v target).length = target ∧
    (∀ it ∈ (handleEmbed000 tgt embedder body).data, it.embedding.length = tgt) := by
  refine ⟨?_, ?_, ?_, adjustDim_length v target, ?_⟩
  · intro h
    simp [adjustDim, h]
  · intro h
    simp [adjustDim, Nat.ne_of_lt h, h]
  · intro h
    simp [adjustDim, ne_of_gt h, Nat.not_lt_of_lt h]
  · intro it hit
    unfold handleEmbed000 handleEmbedWith at hit
    cases h : processItems (itemEmb000 tgt) embedder (normalizeInput body.input) 0 with
    | ok p =>
      rw [h] at hit
      obtain ⟨-, -, hmem⟩ := processItems_ok (itemEmb000 tgt) embedder _ 0 p h
      obtain ⟨-, raw, hemb⟩ := hmem it hit
      rw [hemb, itemEmb000]
      exact adjustDim_length _ _
    | error e =>
      rw [h] at hit
      simp at hit

-- Concrete evaluations used by the witnesses.
theorem textsA : normalizeInput (JsInput.single (some "a")) = ["a"] := by decide

theorem meanPoolVec_raw0 : meanPoolVec raw0 = [0] := by
  show (List.range 1).map
      (fun d => accumOut (([0] : List ℝ)) 1 (1 * 1) d / ((1 : Nat) : ℝ)) = [0]
  have h1 : List.range 1 = [0] := rfl
  have h2 : accumOut (([0] : List ℝ)) 1 (1 * 1) 0 = 0 := by
    rw [accumOut_eq]
    rw [show (1 : Nat) * 1 = 1 from rfl, Finset.range_one]
    simp
  rw [h1, List.map_singleton, h2]
  simp

theorem sumSq_zerovec : sumSq [(0 : ℝ)] = 0 := by
  simp [sumSq]

theorem l2norm_zerovec : l2norm [(0 : ℝ)] = [0] := l2norm_of_zero _ sumSq_zerovec

theorem itemEmb000_raw0 : itemEmb000 1 raw0 = [0] := by
  have h : itemEmb000 1 raw0 = adjustDim (l2norm (meanPoolVec raw0)) 1 := rfl
  rw [h, meanPoolVec_raw0, l2norm_zerovec]
  simp [adjustDim]

theorem itemEmbSrv_raw0 : itemEmbSrv raw0 = [0] := by
  have h : itemEmbSrv raw0 = l2norm (meanPoolVec raw0) := rfl
  rw [h, meanPoolVec_raw0, l2norm_zerovec]

theorem procA000 : processItems (itemEmb000 1) zeroEmb ["a"] 0
    = .ok ([⟨"embedding", 0, [0]⟩], 1) := by
  have h : processItems (itemEmb000 1) zeroEmb ["a"] 0
      = .ok ([⟨"embedding", 0, itemEmb000 1 raw0⟩], (meanPoolTensor raw0).2 + 0) := rfl
  rw [h, itemEmb000_raw0]
  rfl

theorem procASrv : processItems itemEmbSrv zeroEmb ["a"] 0
    = .ok ([⟨"embedding", 0, [0]⟩], 1) := by
  have h : processItems itemEmbSrv zeroEmb ["a"] 0
      = .ok ([⟨"embedding", 0, itemEmbSrv raw0⟩], (meanPoolTensor raw0).2 + 0) := rfl
  rw [h, itemEmbSrv_raw0]
  rfl

theorem eval000 : handleEmbed000 1 zeroEmb bodyA
    = ⟨"list", [⟨"embedding", 0, [0]⟩], "text-embedding-3-small", ⟨1, 1⟩, none, 200⟩ := by
  unfold handleEmbed000 handleEmbedWith
  rw [show normalizeInput bodyA.input = ["a"] from textsA, procA000]
  rfl

theorem evalSrv : handleEmbedSrv zeroEmb bodyA
    = ⟨"list", [⟨"embedding", 0, [0]⟩], "text-embedding-3-small", ⟨1, 1⟩, none, 200⟩ := by
  unfold handleEmbedSrv handleEmbedWith
  rw [show normalizeInput bodyA.input = ["a"] from textsA, procASrv]
  rfl

/-- Witness for C2 on concrete vectors and on the concrete padded-variant
response of the zero-tensor scenario. -/
theorem c2_adjustDim_witness :
    adjustDim [(1 : ℝ), 2] 2 = [1, 2] ∧
    adjustDim [(1 : ℝ)] 3 = [1] ++ List.replicate 2 0 ∧
    adjustDim [(1 : ℝ), 2, 3] 2 = [(1 : ℝ), 2, 3].take 2 ∧
    (∀ it ∈ (handleEmbed000 1 zeroEmb bodyA).data, it.embedding.length = 1) :=
  ⟨(c2_adjustDim [1, 2] 2 1 zeroEmb bodyA).1 (by simp),
   (c2_adjustDim [1] 3 1 zeroEmb bodyA).2.1 (by simp),
   (c2_adjustDim [1, 2, 3] 2 1 zeroEmb bodyA).2.2.1 (by simp),
   (c2_adjustDim [1] 3 1 zeroEmb bodyA).2.2.2.2⟩

-- The catch branch of the handler: empty data, zeroed usage, nonempty error.
theorem handleEmbedWith_err (item : Tensor ℝ → List ℝ)
    (embedder : String → Except String (Tensor ℝ)) (body : ReqBody)
    (h : ∃ t ∈ normalizeInput body.input, ∃ e, embedder t = .error e) :
    (handleEmbedWith item embedder body).data = [] ∧
    (handleEmbedWith item embedder body).usage = ⟨0, 0⟩ ∧
    ∃ m, (handleEmbedWith item embedder body).error = some m ∧ m ≠ "" := by
  obtain ⟨e, he⟩ := processItems_err item embedder _ 0 h
  unfold handleEmbedWith
  rw [he]
  refine ⟨rfl, rfl, errString e, rfl, ?_⟩
  unfold errString
  by_cases hm : e = ""
  · rw [if_pos hm]
    decide
  · rw [if_neg hm]
    exact hm

/-- C3: if the embedder raises an error on any item of the batch, the /embed
response carries an empty data list, both usage counters zero, and a nonempty
error field, for both handler variants; no embedding computed for an earlier
item of the same batch appears in the response. -/
theorem c3_no_partial (tgt : Nat) (embedder : String → Except String (Tensor ℝ))
    (body : ReqBody)
    (h : ∃ t ∈ normalizeInput body.input, ∃ e, embedder t = .error e) :
    ((handleEmbed000 tgt embedder body).data = [] ∧
     (handleEmbed000 tgt embedder body).usage = ⟨0, 0⟩ ∧
     ∃ m, (handleEmbed000 tgt embedder body).error = some m ∧ m ≠ "") ∧
    ((handleEmbedSrv embedder body).data = [] ∧
     (handleEmbedSrv embedder body).usage = ⟨0, 0⟩ ∧
     ∃ m, (handleEmbedSrv embedder body).error = some m ∧ m ≠ "") :=
  ⟨handleEmbedWith_err (itemEmb000 tgt) embedder body h,
   handleEmbedWith_err itemEmbSrv embedder body h⟩

/-- Witness for C3: a batch whose only item makes the embedder throw. -/
theorem c3_no_partial_witness :
    ((handleEmbed000 1 failEmb bodyA).data = [] ∧
     (handleEmbed000 1 failEmb bodyA).usage = ⟨0, 0⟩ ∧
     ∃ m, (handleEmbed000 1 failEmb bodyA).error = some m ∧ m ≠ "") ∧
    ((handleEmbedSrv failEmb bodyA).data = [] ∧
     (handleEmbedSrv failEmb bodyA).usage = ⟨0, 0⟩ ∧
     ∃ m, (handleEmbedSrv failEmb bodyA).error = some m ∧ m ≠ "") :=
  c3_no_partial 1 failEmb bodyA
    ⟨"a", by show "a" ∈ normalizeInput (JsInput.single (some "a")); rw [textsA]; simp,
     "boom", rfl⟩

-- Order and length of the data list on the success path.
theorem handleEmbedWith_order (item : Tensor ℝ → List ℝ)
    (embedder : String → Except String (Tensor ℝ)) (body : ReqBody)
    (h : (handleEmbedWith item embedder body).error = none) :
    (handleEmbedWith item embedder body).data.length = (normalizeInput body.input).length ∧
    ∀ i, i < (handleEmbedWith item embedder body).data.length →
      ((handleEmbedWith item embedder body).data.getD i ⟨"", 0, []⟩).index = i := by
  unfold handleEmbedWith at h ⊢
  cases hp : processItems item embedder (normalizeInput body.input) 0 with
  | ok p =>
    obtain ⟨hlen, hidx, -⟩ := processItems_ok item embedder _ 0 p hp
    exact ⟨hlen, fun i hi => by
      have h0 := hidx i hi
      rw [Nat.zero_add] at h0
      exact h0⟩
  | error e =>
    rw [hp] at h
    simp at h

/-- C5: for every successful /embed request, the response data list has
exactly one entry per normalized input item, in input order, and the entry at
position i carries index i, for both handler variants. -/
theorem c5_batch_order (tgt : Nat) (embedder : String → Except String (Tensor ℝ))
    (body : ReqBody) :
    ((handleEmbed000 tgt embedder body).error = none →
      (handleEmbed000 tgt embedder body).data.length = (normalizeInput body.input).length ∧
      ∀ i, i < (handleEmbed000 tgt embedder body).data.length →
        ((handleEmbed000 tgt embedder body).data.getD i ⟨"", 0, []⟩).index = i) ∧
    ((handleEmbedSrv embedder body).error = none →
      (handleEmbedSrv embedder body).data.length = (normalizeInput body.input).length ∧
      ∀ i, i < (handleEmbedSrv embedder body).data.length →
        ((handleEmbedSrv embedder body).data.getD i ⟨"", 0, []⟩).index = i) :=
  ⟨fun h => handleEmbedWith_order (itemEmb000 tgt) embedder body h,
   fun h => handleEmbedWith_order itemEmbSrv embedder body h⟩

/-- Witness for C5 on the concrete zero-tensor success scenario. -/
theorem c5_batch_order_witness :
    ((handleEmbed000 1 zeroEmb bodyA).data.length = (normalizeInput bodyA.input).length ∧
      ∀ i, i < (handleEmbed000 1 zeroEmb bodyA).data.length →
        ((handleEmbed000 1 zeroEmb bodyA).data.getD i ⟨"", 0, []⟩).index = i) ∧
    ((handleEmbedSrv zeroEmb bodyA).data.length = (normalizeInput bodyA.input).length ∧
      ∀ i, i < (handleEmbedSrv zeroEmb bodyA).data.length →
        ((handleEmbedSrv zeroEmb bodyA).data.getD i ⟨"", 0, []⟩).index = i) :=
  ⟨(c5_batch_order 1 zeroEmb bodyA).1 (by rw [eval000]),
   (c5_batch_order 1 zeroEmb bodyA).2 (by rw [evalSrv])⟩

/-- C9 counterexample: a request that supplies the model field with the empty
string receives the default label back, not the supplied value, so the model
field is not echoed verbatim for every supplied value. -/
theorem c9_counterexample :
    (handleEmbed000 1 failEmb ⟨JsInput.single (some "hi"), some ""⟩).model ≠ "" := by
  have h := handleEmbedWith_model (itemEmb000 1) failEmb
    ⟨JsInput.single (some "hi"), some ""⟩
  rw [show handleEmbed000 1 failEmb ⟨JsInput.single (some "hi"), some ""⟩
      = handleEmbedWith (itemEmb000 1) failEmb ⟨JsInput.single (some "hi"), some ""⟩
      from rfl, h]
  decide

/-- C9 (amended): for every /embed request that supplies a nonempty model
string, the response model field equals the supplied value verbatim, in both
the success and the error branch, for both handler variants; an empty
supplied model string falls back to the default label instead. -/
theorem c9_model_echo (tgt : Nat) (embedder : String → Except String (Tensor ℝ))
    (body : ReqBody) (s : String) (hm : body.model = some s) (hs : s ≠ "") :
    (handleEmbed000 tgt embedder body).model = s ∧
    (handleEmbedSrv embedder body).model = s := by
  constructor
  · rw [show handleEmbed000 tgt embedder body
        = handleEmbedWith (itemEmb000 tgt) embedder body from rfl,
      handleEmbedWith_model, hm]
    simp [jsOr, hs]
  · rw [show handleEmbedSrv embedder body
        = handleEmbedWith itemEmbSrv embedder body from rfl,
      handleEmbedWith_model, hm]
    simp [jsOr, hs]

/-- Witness for C9 at the supplied nonempty model string "m". -/
theorem c9_model_echo_witness :
    (handleEmbed000 1 failEmb ⟨JsInput.single (some "a"), some "m"⟩).model = "m" ∧
    (handleEmbedSrv failEmb ⟨JsInput.single (some "a"), some "m"⟩).model = "m" :=
  c9_model_echo 1 failEmb ⟨JsInput.single (some "a"), some "m"⟩ "m" rfl (by decide)

/-- C6 counterexample: the empty array input produces an empty texts
sequence, so the normalizer does not return a non-empty sequence for every
raw request input. -/
theorem c6_counterexample : normalizeInput (JsInput.arr []) = [] := rfl

/-- C6 (amended): the normalizer preserves the order and length of the input
items, maps each element to its trimmed stringified form with an empty
trimmed result replaced by a single-space placeholder, never yields an empty
string element, and returns a non-empty sequence whenever the input is not
the empty array. -/
theorem c6_normalizer (input : JsInput) :
    (normalizeInput input).length = (itemsOf input).length ∧
    (∀ s ∈ normalizeInput input, s ≠ "") ∧
    (∀ i, i < (itemsOf input).length →
      (normalizeInput input).getD i "" = coerceItem ((itemsOf input).getD i none)) ∧
    (input ≠ JsInput.arr [] → normalizeInput input ≠ []) := by
  refine ⟨by simp [normalizeInput], ?_, ?_, ?_⟩
  · intro s hs
    rw [normalizeInput, List.mem_map] at hs
    obtain ⟨t, -, rfl⟩ := hs
    unfold coerceItem
    by_cases h : 0 < (jsTrim (t.getD "")).length
    · rw [if_pos h]
      intro h0
      rw [h0] at h
      exact absurd h (by decide)
    · rw [if_neg h]
      decide
  · intro i hi
    rw [normalizeInput]
    rw [List.getD_eq_getElem _ _ (by simpa using hi), List.getElem_map,
      List.getD_eq_getElem _ _ hi]
  · intro hne
    cases input with
    | single v => simp [normalizeInput, itemsOf]
    | arr l =>
      cases l with
      | nil => exact absurd rfl hne
      | cons a as => simp [normalizeInput, itemsOf]

/-- Witness for C6 at the two-element array input with a padded string and a
null element. -/
theorem c6_normalizer_witness :
    (normalizeInput (JsInput.arr [some " x ", none])).length
      = (itemsOf (JsInput.arr [some " x ", none])).length ∧
    "x" ≠ "" ∧
    (normalizeInput (JsInput.arr [some " x ", none])).getD 1 ""
      = coerceItem ((itemsOf (JsInput.arr [some " x ", none])).getD 1 none) ∧
    normalizeInput (JsInput.arr [some " x ", none]) ≠ [] :=
  ⟨(c6_normalizer (JsInput.arr [some " x ", none])).1,
   (c6_normalizer (JsInput.arr [some " x ", none])).2.1 "x" (by decide),
   (c6_normalizer (JsInput.arr [some " x ", none])).2.2.1 1 (by decide),
   (c6_normalizer (JsInput.arr [some " x ", none])).2.2.2 (by decide)⟩

/-- C7: the fallback path of the inference adapter is extensionally the
l2norm-of-meanPoolTensor pipeline of the other variants (just the pooling
when normalize is off), and whichever branch the adapter takes, the caller
receives a vector of length D, the native hidden dimension, given that a
fast-path result carries data of length D. -/
theorem c7_adapter (nrm : Bool) (fast : Option JsTensorish) (raw : Tensor ℝ) (T D : Nat)
    (hdims : raw.dims = [1, T, D])
    (hfast : ∀ t d, fast = some t → t.data = some d → d.length = D) :
    fallbackVec001 nrm raw
      = (if nrm then l2norm (meanPoolTensor raw).1 else (meanPoolTensor raw).1) ∧
    (adapterItem nrm fast raw).length = D := by
  have hfb : fallbackVec001 nrm raw
      = (if nrm then l2norm (meanPoolTensor raw).1 else (meanPoolTensor raw).1) := by
    cases nrm with
    | true => rfl
    | false => rfl
  have hm : (meanPoolTensor raw).1.length = D := by
    show (meanPoolVec raw).length = D
    simp [meanPoolVec, hdims]
  have hlenfb : (fallbackVec001 nrm raw).length = D := by
    rw [hfb]
    cases nrm with
    | true => rw [if_pos rfl, l2norm_length, hm]
    | false => rw [if_neg (by simp), hm]
  refine ⟨hfb, ?_⟩
  cases fast with
  | none => exact hlenfb
  | some t =>
    cases t with
    | mk dataF dimsF =>
      cases dataF with
      | none => exact hlenfb
      | some d =>
        cases dimsF with
        | none => exact hlenfb
        | some ds =>
          by_cases hds : 1 ≤ ds.length
          · rw [show adapterItem nrm (some ⟨some d, some ds⟩) raw
                = (if 1 ≤ ds.length then d else fallbackVec001 nrm raw) from rfl,
              if_pos hds]
            exact hfast ⟨some d, some ds⟩ d rfl rfl
          · rw [show adapterItem nrm (some ⟨some d, some ds⟩) raw
                = (if 1 ≤ ds.length then d else fallbackVec001 nrm raw) from rfl,
              if_neg hds]
            exact hlenfb

/-- Witness for C7 at a concrete raw tensor of dims [1, 1, 2] with the fast
path absent. -/
theorem c7_adapter_witness :
    fallbackVec001 false ⟨[1, 1, 2], [0, 0]⟩
      = (if false then l2norm (meanPoolTensor (⟨[1, 1, 2], [0, 0]⟩ : Tensor ℝ)).1
         else (meanPoolTensor (⟨[1, 1, 2], [0, 0]⟩ : Tensor ℝ)).1) ∧
    (adapterItem false none ⟨[1, 1, 2], [0, 0]⟩).length = 2 :=
  c7_adapter false none ⟨[1, 1, 2], [0, 0]⟩ 1 2 rfl (by intro t d h h2; cases h)

-- Correctness of the boolean needle test against list concatenation.
theorem startsWithL_iff (needle : List Char) :
    ∀ l, startsWithL needle l = true ↔ ∃ post, l = needle ++ post := by
  induction needle with
  | nil =>
    intro l
    constructor
    · intro _
      exact ⟨l, rfl⟩
    · intro _
      rfl
  | cons a as ih =>
    intro l
    cases l with
    | nil =>
      constructor
      · intro h
        rw [show startsWithL (a :: as) [] = false from rfl] at h
        cases h
      · rintro ⟨post, hp⟩
        cases hp
    | cons b bs =>
      rw [show startsWithL (a :: as) (b :: bs) = ((a == b) && startsWithL as bs) from rfl,
        Bool.and_eq_true, beq_iff_eq]
      constructor
      · rintro ⟨rfl, h2⟩
        obtain ⟨post, rfl⟩ := (ih bs).mp h2
        exact ⟨post, rfl⟩
      · rintro ⟨post, hp⟩
        injection hp with h1 h2
        exact ⟨h1.symm, (ih bs).mpr ⟨post, h2⟩⟩

-- Correctness of the boolean substring search against list concatenation.
theorem hasSubL_iff (needle : List Char) :
    ∀ l, hasSubL needle l = true ↔ ∃ p q, l = p ++ needle ++ q := by
  intro l
  induction l with
  | nil =>
    rw [show hasSubL needle [] = needle.isEmpty from rfl]
    constructor
    · intro h
      have hn : needle = [] := by
        cases needle with
        | nil => rfl
        | cons a as => cases h
      exact ⟨[], [], by rw [hn]; rfl⟩
    · rintro ⟨p, q, hp⟩
      have hp' := hp.symm
      rw [List.append_eq_nil] at hp'
      obtain ⟨hpn, -⟩ := hp'
      rw [List.append_eq_nil] at hpn
      rw [hpn.2]
      rfl
  | cons b bs ih =>
    rw [show hasSubL needle (b :: bs) = (startsWithL needle (b :: bs) || hasSubL needle bs)
        from rfl, Bool.or_eq_true]
    constructor
    · rintro (h | h)
      · obtain ⟨post, hp⟩ := (startsWithL_iff needle (b :: bs)).mp h
        exact ⟨[], post, by rw [hp]; rfl⟩
      · obtain ⟨p, q, hp⟩ := ih.mp h
        exact ⟨b :: p, q, by rw [hp]; rfl⟩
    · rintro ⟨p, q, hp⟩
      cases p with
      | nil =>
        left
        exact (startsWithL_iff needle (b :: bs)).mpr ⟨q, hp⟩
      | cons c p2 =>
        right
        injection hp with h1 h2
        exact ih.mpr ⟨p2, q, h2⟩

/-- C8: withPrefix is the identity on its text argument unless the feature is
enabled and the model identifier contains the marker bge as a
case-insensitive substring; when active it prepends the query marker for the
query role and the passage marker for every other role. -/
theorem c8_withPrefixFn (useP : Bool) (m s k : String) :
    (bgeTest m = true ↔ ∃ p q, (lowerStr m).data = p ++ "bge".data ++ q) ∧
    ((useP = false ∨ bgeTest m = false) → withPrefixFn useP m s k = s) ∧
    (useP = true → bgeTest m = true →
      withPrefixFn useP m s k
        = (if k = "query" then "query: " ++ s else "passage: " ++ s)) := by
  refine ⟨hasSubL_iff "bge".data (lowerStr m).data, ?_, ?_⟩
  · intro h
    unfold withPrefixFn
    rcases h with h | h <;> simp [h]
  · intro hu hb
    unfold withPrefixFn
    rw [hu, hb]
    simp

/-- Witness for C8 at the default bge model identifier, for the disabled
flag, the query role and the passage role. -/
theorem c8_withPrefixFn_witness :
    withPrefixFn false "Xenova/bge-small-en-v1.5" "hi" "query" = "hi" ∧
    withPrefixFn true "Xenova/bge-small-en-v1.5" "hi" "query"
      = (if "query" = "query" then "query: " ++ "hi" else "passage: " ++ "hi") ∧
    withPrefixFn true "Xenova/bge-small-en-v1.5" "doc" "passage"
      = (if "passage" = "query" then "query: " ++ "doc" else "passage: " ++ "doc") :=
  ⟨(c8_withPrefixFn false "Xenova/bge-small-en-v1.5" "hi" "query").2.1 (Or.inl rfl),
   (c8_withPrefixFn true "Xenova/bge-small-en-v1.5" "hi" "query").2.2 rfl (by decide),
   (c8_withPrefixFn true "Xenova/bge-small-en-v1.5" "doc" "passage").2.2 rfl (by decide)⟩

/-- C10: in the padded variant the per-item embedding is adjustDim applied
after l2norm applied after mean pooling, with no re-normalization afterwards;
padding a normalized nonzero vector with zeros keeps Euclidean length exactly
1, while truncating it yields Euclidean length strictly below 1 whenever a
discarded component is nonzero. -/
theorem c10_pipeline (tgt : Nat) (raw : Tensor ℝ) (v : List ℝ) :
    itemEmb000 tgt raw = adjustDim (l2norm (meanPoolTensor raw).1) tgt ∧
    (sumSq v ≠ 0 → v.length ≤ tgt → eucNorm (adjustDim (l2norm v) tgt) = 1) ∧
    (sumSq v ≠ 0 → tgt < v.length → sumSq (v.drop tgt) ≠ 0 →
      eucNorm (adjustDim (l2norm v) tgt) < 1) := by
  refine ⟨rfl, ?_, ?_⟩
  · intro hv hle
    have hunit : sumSq (l2norm v) = 1 := sumSq_l2norm v hv
    have hlen : (l2norm v).length = v.length := l2norm_length v
    rcases eq_or_lt_of_le hle with heq | hlt
    · rw [adjustDim, if_pos (by rw [hlen, heq])]
      rw [eucNorm, hunit, Real.sqrt_one]
    · rw [adjustDim, if_neg (by rw [hlen]; omega), if_pos (by rw [hlen]; exact hlt)]
      rw [eucNorm, sumSq_append, hunit, sumSq_replicate_zero, add_zero, Real.sqrt_one]
  · intro hv htr hdr
    have hlen : (l2norm v).length = v.length := l2norm_length v
    rw [adjustDim, if_neg (by rw [hlen]; omega), if_neg (by rw [hlen]; omega)]
    have hs : 0 < sumSq v := lt_of_le_of_ne (sumSq_nonneg v) (Ne.symm hv)
    rw [l2norm_of_ne v hv, ← List.map_take, eucNorm, sumSq_map_div,
      Real.mul_self_sqrt (le_of_lt hs)]
    have hsplit : sumSq (v.take tgt) + sumSq (v.drop tgt) = sumSq v := by
      rw [← sumSq_append, List.take_append_drop]
    have hdpos : 0 < sumSq (v.drop tgt) :=
      lt_of_le_of_ne (sumSq_nonneg _) (Ne.symm hdr)
    have hlt1 : sumSq (v.take tgt) / sumSq v < 1 := by
      rw [div_lt_one hs]
      linarith
    have hge0 : 0 ≤ sumSq (v.take tgt) / sumSq v :=
      div_nonneg (sumSq_nonneg _) (le_of_lt hs)
    calc Real.sqrt (sumSq (v.take tgt) / sumSq v)
        < Real.sqrt 1 := Real.sqrt_lt_sqrt hge0 hlt1
      _ = 1 := Real.sqrt_one

/-- Witness for C10 at the zero-tensor pipeline and the concrete normalized
vector built from [1, 1], padded to 3 and truncated to 1. -/
theorem c10_pipeline_witness :
    itemEmb000 4 raw0 = adjustDim (l2norm (meanPoolTensor raw0).1) 4 ∧
    eucNorm (adjustDim (l2norm [(1 : ℝ), 1]) 3) = 1 ∧
    eucNorm (adjustDim (l2norm [(1 : ℝ), 1]) 1) < 1 :=
  ⟨(c10_pipeline 4 raw0 [1, 1]).1,
   (c10_pipeline 3 raw0 [1, 1]).2.1 (by norm_num [sumSq_eq_sum]) (by norm_num),
   (c10_pipeline 1 raw0 [1, 1]).2.2 (by norm_num [sumSq_eq_sum]) (by norm_num)
     (by norm_num [sumSq_eq_sum])⟩
